import Mathlib

/-!
Verification of the genomic-coordinates-to-BED converter (`app.py`).

The embedding models Python strings as Lean `String`s (operating on their
underlying `List Char`), with `str.strip()` as trimming of the four ASCII
whitespace characters and the regex class `\d` as ASCII digits.  The two
regular expressions of `parse_position` use only character classes that are
disjoint from the literal characters that follow them, so Python's greedy
backtracking matcher coincides with deterministic maximal munch, which is
what `matchP1` / `matchP2` implement.  The remote liftover service is
abstracted as an explicit `HttpOutcome` argument; the Streamlit UI layer
(rendering, download button) is out of scope, as in the specification.
-/

/-- The character class `[\dXYM]` of both coordinate patterns. -/
def isTokChar (c : Char) : Bool :=
  c.isDigit || c == 'X' || c == 'Y' || c == 'M'

/-- Whitespace as stripped by `str.strip()` (restricted to ASCII whitespace). -/
def isSpaceChar (c : Char) : Bool :=
  c == ' ' || c == '\t' || c == '\n' || c == '\r'

/-- `str.strip()` on the character list: drop whitespace from both ends. -/
def stripChars (cs : List Char) : List Char :=
  (((cs.dropWhile isSpaceChar).reverse).dropWhile isSpaceChar).reverse

/-- `str.strip()` on strings. -/
def pyStrip (s : String) : String :=
  String.mk (stripChars s.data)

/-- `str.split('\n')` helper: accumulate the current line (reversed). -/
def splitLinesAux : List Char → List Char → List String
  | [], acc => [String.mk acc.reverse]
  | '\n' :: rest, acc => String.mk acc.reverse :: splitLinesAux rest []
  | c :: rest, acc => splitLinesAux rest (c :: acc)

/-- `str.split('\n')`: Python semantics (`"".split('\n') = [""]`,
a trailing separator yields a trailing empty string). -/
def pySplitNL (s : String) : List String :=
  splitLinesAux s.data []

/-- `int()` on a string of ASCII digits. -/
def digitsToNat (ds : List Char) : Nat :=
  ds.foldl (fun n c => 10 * n + (c.toNat - 48)) 0

/-- `line.startswith('chr')` on the character list. -/
def startsWithChr : List Char → Bool
  | 'c' :: 'h' :: 'r' :: _ => true
  | _ => false

/-- `re.match` against pattern 1, `(chr[\dXYM]+):(\d+)-(\d+)`: anchored at the
start, unanchored at the end, each quantified class matched by maximal munch
(equivalent to Python's backtracking because `:` and `-` are outside the
classes they follow). -/
def matchP1 : List Char → Option (List Char × Nat × Nat)
  | 'c' :: 'h' :: 'r' :: rest =>
    let tok := rest.takeWhile isTokChar
    if tok = [] then none else
    match rest.dropWhile isTokChar with
    | ':' :: r2 =>
      let d1 := r2.takeWhile Char.isDigit
      if d1 = [] then none else
      match r2.dropWhile Char.isDigit with
      | '-' :: r4 =>
        let d2 := r4.takeWhile Char.isDigit
        if d2 = [] then none
        else some ('c' :: 'h' :: 'r' :: tok, digitsToNat d1, digitsToNat d2)
      | _ => none
    | _ => none
  | _ => none

/-- `re.match` against pattern 2, `(chr[\dXYM]+):(\d+)`; on success the parsed
position `pos` yields the interval `(pos, pos + 1)`. -/
def matchP2 : List Char → Option (List Char × Nat × Nat)
  | 'c' :: 'h' :: 'r' :: rest =>
    let tok := rest.takeWhile isTokChar
    if tok = [] then none else
    match rest.dropWhile isTokChar with
    | ':' :: r2 =>
      let d := r2.takeWhile Char.isDigit
      if d = [] then none
      else some ('c' :: 'h' :: 'r' :: tok, digitsToNat d, digitsToNat d + 1)
    | _ => none
  | _ => none

/-- `parse_position` on the character list: strip, skip empty, prepend `chr`
when missing, then try pattern 1 and fall back to pattern 2. -/
def parseChars (cs : List Char) : Option (List Char × Nat × Nat) :=
  let l := stripChars cs
  if l = [] then none
  else
    let l2 := if startsWithChr l then l else 'c' :: 'h' :: 'r' :: l
    match matchP1 l2 with
    | some r => some r
    | none => matchP2 l2

/-- `parse_position(line)`: `None` becomes `none`, a match becomes the
`(chromosome, start, end)` triple. -/
def parse_position (line : String) : Option (String × Nat × Nat) :=
  (parseChars line.data).map (fun r => (String.mk r.1, r.2.1, r.2.2))

/-- The two genome assemblies offered by the sidebar. -/
inductive Assembly
  | hg19
  | hg38
deriving DecidableEq

/-- Decimal digits of `n`, most significant first, via fuel recursion. -/
def natDigitsAux : Nat → Nat → List Char
  | 0, _ => []
  | fuel + 1, n =>
    if n < 10 then [Nat.digitChar n]
    else natDigitsAux fuel (n / 10) ++ [Nat.digitChar (n % 10)]

/-- Python `f"{n}"` for a natural number. -/
def natToStr (n : Nat) : String :=
  String.mk (natDigitsAux (n + 1) n)

/-- `f"{chrom}\t{start}\t{end}"`, one BED record. -/
def serializeBed (chrom : String) (s e : Nat) : String :=
  chrom ++ "\t" ++ natToStr s ++ "\t" ++ natToStr e

/-- `f"Line {idx}: {line}"`, a parse-failure report. -/
def failMsg (idx : Nat) (line : String) : String :=
  "Line " ++ natToStr idx ++ ": " ++ line

/-- `f"Line {idx}: {line} ({chrom}:{start}-{end})"`, a liftover-failure report. -/
def loFailMsg (idx : Nat) (line : String) (chrom : String) (s e : Nat) : String :=
  "Line " ++ natToStr idx ++ ": " ++ line ++ " (" ++ chrom ++ ":" ++ natToStr s
    ++ "-" ++ natToStr e ++ ")"

/-- The response body of the remote mapping service, as far as the client
inspects it: one element of `data["mappings"]` either carries a `mapped`
record or lacks one (so that subscripting raises). -/
structure MappedRecord where
  seq_region_name : String
  mstart : Nat
  mend : Nat
deriving DecidableEq

/-- One element of the `mappings` list. -/
inductive MappingElem
  | noMapped
  | withMapped (m : MappedRecord)
deriving DecidableEq

/-- The JSON body outcomes the client distinguishes: `.json()` raising,
a body without a `mappings` key, or a `mappings` list. -/
inductive JsonBody
  | malformed
  | noMappings
  | mappings (l : List MappingElem)
deriving DecidableEq

/-- Behaviour of the remote service on one request: either `requests.get`
raises (timeout, network error) or an HTTP response arrives. -/
inductive HttpOutcome
  | exn
  | response (status : Nat) (body : JsonBody)
deriving DecidableEq

/-- The body of the `try:` block of `liftover_pyliftover`; raising points
(`requests.get`, `.json()`, subscripting a missing `mapped` key) are explicit
`Except.error`.  The request URL built from the arguments does not influence
the returned value, so it is not materialized here. -/
def liftoverTryBody (chrom : String) (s e : Nat) (fromA toA : Assembly)
    (out : HttpOutcome) : Except Unit (Option (String × Nat × Nat)) :=
  match out with
  | .exn => .error ()
  | .response status body =>
    if status = 200 then
      match body with
      | .malformed => .error ()
      | .noMappings => .ok none
      | .mappings [] => .ok none
      | .mappings (.noMapped :: _) => .error ()
      | .mappings (.withMapped m :: _) =>
        .ok (some ("chr" ++ m.seq_region_name, m.mstart, m.mend))
    else .ok none

/-- `liftover_pyliftover`: the `try`/`except` wrapper converts every raised
exception into the `None` failure outcome. -/
def liftover_pyliftover (chrom : String) (s e : Nat) (fromA toA : Assembly)
    (out : HttpOutcome) : Option (String × Nat × Nat) :=
  match liftoverTryBody chrom s e fromA toA out with
  | .ok r => r
  | .error _ => none

/-- Accumulated result of one press of the Convert-to-BED button.
`liftCalls` instruments the number of invocations of the liftover client. -/
structure BatchResult where
  bedEntries : List String
  failedLines : List String
  liftoverFailed : List String
  liftCalls : Nat
deriving DecidableEq

/-- The `for idx, line in enumerate(lines, 1)` loop of the button handler.
The liftover client is passed in as a function so that remote behaviour
stays abstract. -/
def processLines (p : Bool) (inA outA : Assembly)
    (lift : String → Nat → Nat → Assembly → Assembly → Option (String × Nat × Nat)) :
    Nat → List String → BatchResult
  | _, [] => ⟨[], [], [], 0⟩
  | idx, line :: rest =>
    let r := processLines p inA outA lift (idx + 1) rest
    match parse_position line with
    | none => { r with failedLines := failMsg idx line :: r.failedLines }
    | some (chrom, s, e) =>
      if p ∧ inA ≠ outA then
        match lift chrom s e inA outA with
        | some (c2, s2, e2) =>
          { r with bedEntries := serializeBed c2 s2 e2 :: r.bedEntries,
                   liftCalls := r.liftCalls + 1 }
        | none =>
          { r with liftoverFailed := loFailMsg idx line chrom s e :: r.liftoverFailed,
                   liftCalls := r.liftCalls + 1 }
      else { r with bedEntries := serializeBed chrom s e :: r.bedEntries }

/-- The Convert-to-BED button handler: a blank input only warns, otherwise
the stripped input is split on newlines and processed line by line. -/
def runBatch (p : Bool) (inA outA : Assembly)
    (lift : String → Nat → Nat → Assembly → Assembly → Option (String × Nat × Nat))
    (input : String) : BatchResult :=
  if pyStrip input = "" then ⟨[], [], [], 0⟩
  else processLines p inA outA lift 1 (pySplitNL (pyStrip input))

/-- Lines paired with their 1-based line numbers. -/
def withLineNumbers : Nat → List String → List (Nat × String)
  | _, [] => []
  | n, l :: ls => (n, l) :: withLineNumbers (n + 1) ls

/-- The liftover-failure reports a batch produces when every liftover call
fails: one per successfully parsed line, in input order. -/
def expectedLiftoverFailures (input : String) : List String :=
  (withLineNumbers 1 (pySplitNL (pyStrip input))).filterMap
    (fun pr => (parse_position pr.2).map
      (fun r => loFailMsg pr.1 pr.2 r.1 r.2.1 r.2.2))

/-- The BED lines a batch produces when no liftover happens: the serialized
parse result of each parseable line, in input order. -/
def expectedBedNoLift (input : String) : List String :=
  (pySplitNL (pyStrip input)).filterMap
    (fun l => (parse_position l).map (fun r => serializeBed r.1 r.2.1 r.2.2))

/-- A liftover client that always fails (used to instantiate theorems). -/
def noLift : String → Nat → Nat → Assembly → Assembly → Option (String × Nat × Nat) :=
  fun _ _ _ _ _ => none

/-- The chromosome shape asserted by the specification's data-model invariant:
`chr` followed by a digit sequence, or by exactly `X`, `Y` or `M`. -/
def specChromPattern (c : String) : Bool :=
  match c.data with
  | 'c' :: 'h' :: 'r' :: t =>
    (!t.isEmpty && t.all Char.isDigit) || t == ['X'] || t == ['Y'] || t == ['M']
  | _ => false

/-- The end-to-end scenario input of the specification's §8. -/
def scenarioInput : String :=
  "chr1:1000000\nchr2:5000000-5001000\n3:1234567-1234890\n\nbadline"

/-! ## Helper lemmas -/

lemma data_mk (l : List Char) : (String.mk l).data = l := rfl

lemma tokChar_colon : isTokChar ':' = false := by decide

lemma matchP1_spec (tok d1 d2 rst : List Char)
    (htok : tok ≠ []) (htokall : ∀ c ∈ tok, isTokChar c = true)
    (hd1 : d1 ≠ []) (hd1all : ∀ c ∈ d1, c.isDigit = true)
    (hd2 : d2 ≠ []) (hd2all : ∀ c ∈ d2, c.isDigit = true)
    (hrst : ∀ c cs', rst = c :: cs' → c.isDigit = false) :
    matchP1 ('c' :: 'h' :: 'r' :: (tok ++ ':' :: (d1 ++ '-' :: (d2 ++ rst)))) =
      some ('c' :: 'h' :: 'r' :: tok, digitsToNat d1, digitsToNat d2) := by
  have h1 : (tok ++ ':' :: (d1 ++ '-' :: (d2 ++ rst))).takeWhile isTokChar = tok := by
    rw [List.takeWhile_append_of_pos htokall, List.takeWhile_cons_of_neg (by decide),
      List.append_nil]
  have h2 : (tok ++ ':' :: (d1 ++ '-' :: (d2 ++ rst))).dropWhile isTokChar
      = ':' :: (d1 ++ '-' :: (d2 ++ rst)) := by
    rw [List.dropWhile_append_of_pos htokall, List.dropWhile_cons_of_neg (by decide)]
  have h3 : (d1 ++ '-' :: (d2 ++ rst)).takeWhile Char.isDigit = d1 := by
    rw [List.takeWhile_append_of_pos hd1all, List.takeWhile_cons_of_neg (by decide),
      List.append_nil]
  have h4 : (d1 ++ '-' :: (d2 ++ rst)).dropWhile Char.isDigit = '-' :: (d2 ++ rst) := by
    rw [List.dropWhile_append_of_pos hd1all, List.dropWhile_cons_of_neg (by decide)]
  have h5 : (d2 ++ rst).takeWhile Char.isDigit = d2 := by
    rw [List.takeWhile_append_of_pos hd2all]
    cases rst with
    | nil => simp
    | cons c cs' =>
      rw [List.takeWhile_cons_of_neg (by simp [hrst c cs' rfl]), List.append_nil]
  simp only [matchP1, h1, h2, h3, h4, h5, if_neg htok, if_neg hd1, if_neg hd2]

lemma nospace_dropWhile (l : List Char) (hl : ∀ c ∈ l, isSpaceChar c = false) :
    l.dropWhile isSpaceChar = l := by
  cases l with
  | nil => rfl
  | cons x xs => exact List.dropWhile_cons_of_neg (by simp [hl x (List.mem_cons_self x xs)])

lemma nospace_strip (cs : List Char) (h : ∀ c ∈ cs, isSpaceChar c = false) :
    stripChars cs = cs := by
  unfold stripChars
  rw [nospace_dropWhile cs h,
    nospace_dropWhile cs.reverse (fun c hc => h c (List.mem_reverse.mp hc)),
    List.reverse_reverse]

lemma tokChar_not_space (c : Char) (h : isTokChar c = true) : isSpaceChar c = false := by
  cases hsp : isSpaceChar c with
  | false => rfl
  | true =>
    exfalso
    simp only [isSpaceChar, Bool.or_eq_true, beq_iff_eq] at hsp
    rcases hsp with ((rfl | rfl) | rfl) | rfl <;> exact absurd h (by decide)

lemma digitChar_not_space (c : Char) (h : c.isDigit = true) : isSpaceChar c = false :=
  tokChar_not_space c (by simp [isTokChar, h])

lemma length_dropWhile_le (p : Char → Bool) : ∀ l : List Char, (l.dropWhile p).length ≤ l.length := by
  intro l
  induction l with
  | nil => simp
  | cons x xs ih =>
    rw [List.dropWhile_cons]
    split
    · exact Nat.le_trans ih (Nat.le_succ _)
    · simp

lemma dropWhile_head_false (p : Char → Bool) (c : Char) (l : List Char)
    (h : (c :: l).dropWhile p = c :: l) : p c = false := by
  cases hpc : p c with
  | false => rfl
  | true =>
    exfalso
    rw [List.dropWhile_cons_of_pos hpc] at h
    have hle := length_dropWhile_le p l
    rw [h] at hle
    simp at hle

lemma dropWhile_eq_self_of_length (p : Char → Bool) (l : List Char)
    (h : (l.dropWhile p).length = l.length) : l.dropWhile p = l := by
  cases l with
  | nil => rfl
  | cons x xs =>
    cases hpx : p x with
    | false => exact List.dropWhile_cons_of_neg (by simp [hpx])
    | true =>
      exfalso
      rw [List.dropWhile_cons_of_pos hpx] at h
      have hle := length_dropWhile_le p xs
      simp at h
      omega

lemma strip_self_parts (cs : List Char) (h : stripChars cs = cs) :
    cs.dropWhile isSpaceChar = cs ∧ cs.reverse.dropWhile isSpaceChar = cs.reverse := by
  have h' : ((cs.dropWhile isSpaceChar).reverse.dropWhile isSpaceChar).reverse = cs := h
  have hlb := length_dropWhile_le isSpaceChar (cs.dropWhile isSpaceChar).reverse
  have hla := length_dropWhile_le isSpaceChar cs
  have hcs := congrArg List.length h'
  simp only [List.length_reverse] at hlb hcs
  have ha : cs.dropWhile isSpaceChar = cs :=
    dropWhile_eq_self_of_length _ _ (by omega)
  refine ⟨ha, ?_⟩
  have hb : (cs.dropWhile isSpaceChar).reverse.dropWhile isSpaceChar = cs.reverse := by
    have := congrArg List.reverse h'
    simpa using this
  rw [ha] at hb
  exact hb

lemma strip_chr_extend (cs : List Char) (hne : cs ≠ []) (h : stripChars cs = cs) :
    stripChars ('c' :: 'h' :: 'r' :: cs) = 'c' :: 'h' :: 'r' :: cs := by
  obtain ⟨hfront, hback⟩ := strip_self_parts cs h
  unfold stripChars
  rw [List.dropWhile_cons_of_neg (by decide)]
  have h2 : ('c' :: 'h' :: 'r' :: cs).reverse = cs.reverse ++ ['r', 'h', 'c'] := by simp
  rw [h2]
  cases hrev : cs.reverse with
  | nil => exact absurd (by simpa using hrev) hne
  | cons b u =>
    have hbu : (b :: u).dropWhile isSpaceChar = b :: u := by rw [← hrev]; exact hback
    have hb : isSpaceChar b = false := dropWhile_head_false _ _ _ hbu
    rw [List.cons_append, List.dropWhile_cons_of_neg (by simp [hb]), ← List.cons_append, ← hrev]
    simp

lemma matchP2_spec (tok d : List Char)
    (htok : tok ≠ []) (htokall : ∀ c ∈ tok, isTokChar c = true)
    (hd : d ≠ []) (hdall : ∀ c ∈ d, c.isDigit = true) :
    matchP2 ('c' :: 'h' :: 'r' :: (tok ++ ':' :: d)) =
      some ('c' :: 'h' :: 'r' :: tok, digitsToNat d, digitsToNat d + 1) := by
  have h1 : (tok ++ ':' :: d).takeWhile isTokChar = tok := by
    rw [List.takeWhile_append_of_pos htokall, List.takeWhile_cons_of_neg (by decide),
      List.append_nil]
  have h2 : (tok ++ ':' :: d).dropWhile isTokChar = ':' :: d := by
    rw [List.dropWhile_append_of_pos htokall, List.dropWhile_cons_of_neg (by decide)]
  have h3 : d.takeWhile Char.isDigit = d := List.takeWhile_eq_self_iff.mpr hdall
  simp only [matchP2, h1, h2, h3, if_neg htok, if_neg hd]

lemma matchP1_single_none (tok d : List Char)
    (htokall : ∀ c ∈ tok, isTokChar c = true)
    (hdall : ∀ c ∈ d, c.isDigit = true) :
    matchP1 ('c' :: 'h' :: 'r' :: (tok ++ ':' :: d)) = none := by
  have h2 : (tok ++ ':' :: d).dropWhile isTokChar = ':' :: d := by
    rw [List.dropWhile_append_of_pos htokall, List.dropWhile_cons_of_neg (by decide)]
  have h3 : d.takeWhile Char.isDigit = d := List.takeWhile_eq_self_iff.mpr hdall
  have h4 : d.dropWhile Char.isDigit = [] := List.dropWhile_eq_nil_iff.mpr hdall
  by_cases htok : tok = []
  · subst htok
    simp only [List.nil_append, matchP1]
    rw [List.takeWhile_cons_of_neg (by decide)]
    simp
  · simp only [matchP1, h2, h3, h4, if_neg htok]
    by_cases hd : d = [] <;> simp [hd]

lemma rangeLine_nospace (tok d1 d2 rst : List Char)
    (htokall : ∀ c ∈ tok, isTokChar c = true)
    (hd1all : ∀ c ∈ d1, c.isDigit = true)
    (hd2all : ∀ c ∈ d2, c.isDigit = true)
    (hrstns : ∀ c ∈ rst, isSpaceChar c = false) :
    ∀ c ∈ ('c' :: 'h' :: 'r' :: (tok ++ ':' :: (d1 ++ '-' :: (d2 ++ rst)))),
      isSpaceChar c = false := by
  intro c hc
  simp only [List.mem_cons, List.mem_append] at hc
  rcases hc with rfl | rfl | rfl | hc | rfl | hc | rfl | hc | hc
  · decide
  · decide
  · decide
  · exact tokChar_not_space c (htokall c hc)
  · decide
  · exact digitChar_not_space c (hd1all c hc)
  · decide
  · exact digitChar_not_space c (hd2all c hc)
  · exact hrstns c hc

lemma parseChars_range (tok d1 d2 rst : List Char)
    (htok : tok ≠ []) (htokall : ∀ c ∈ tok, isTokChar c = true)
    (hd1 : d1 ≠ []) (hd1all : ∀ c ∈ d1, c.isDigit = true)
    (hd2 : d2 ≠ []) (hd2all : ∀ c ∈ d2, c.isDigit = true)
    (hrstns : ∀ c ∈ rst, isSpaceChar c = false)
    (hrst : ∀ c cs', rst = c :: cs' → c.isDigit = false) :
    parseChars ('c' :: 'h' :: 'r' :: (tok ++ ':' :: (d1 ++ '-' :: (d2 ++ rst)))) =
      some ('c' :: 'h' :: 'r' :: tok, digitsToNat d1, digitsToNat d2) := by
  have hstrip := nospace_strip _ (rangeLine_nospace tok d1 d2 rst htokall hd1all hd2all hrstns)
  have hm1 := matchP1_spec tok d1 d2 rst htok htokall hd1 hd1all hd2 hd2all hrst
  simp only [parseChars, hstrip, startsWithChr, if_neg (List.cons_ne_nil _ _), if_true, hm1]

lemma singleLine_nospace (tok d : List Char)
    (htokall : ∀ c ∈ tok, isTokChar c = true)
    (hdall : ∀ c ∈ d, c.isDigit = true) :
    ∀ c ∈ ('c' :: 'h' :: 'r' :: (tok ++ ':' :: d)), isSpaceChar c = false := by
  intro c hc
  simp only [List.mem_cons, List.mem_append] at hc
  rcases hc with rfl | rfl | rfl | hc | rfl | hc
  · decide
  · decide
  · decide
  · exact tokChar_not_space c (htokall c hc)
  · decide
  · exact digitChar_not_space c (hdall c hc)

lemma parseChars_single (tok d : List Char)
    (htok : tok ≠ []) (htokall : ∀ c ∈ tok, isTokChar c = true)
    (hd : d ≠ []) (hdall : ∀ c ∈ d, c.isDigit = true) :
    parseChars ('c' :: 'h' :: 'r' :: (tok ++ ':' :: d)) =
      some ('c' :: 'h' :: 'r' :: tok, digitsToNat d, digitsToNat d + 1) := by
  have hstrip := nospace_strip _ (singleLine_nospace tok d htokall hdall)
  have hm1 := matchP1_single_none tok d htokall hdall
  have hm2 := matchP2_spec tok d htok htokall hd hdall
  simp only [parseChars, hstrip, startsWithChr, if_neg (List.cons_ne_nil _ _), if_true, hm1, hm2]

lemma parseChars_prepend (cs : List Char) (hstrip : stripChars cs = cs) (hne : cs ≠ [])
    (hpre : startsWithChr cs = false) :
    parseChars cs = parseChars ('c' :: 'h' :: 'r' :: cs) := by
  have hext := strip_chr_extend cs hne hstrip
  have hsw : startsWithChr ('c' :: 'h' :: 'r' :: cs) = true := rfl
  simp only [parseChars, hstrip, hext, if_neg hne, if_neg (List.cons_ne_nil _ _), hpre, hsw,
    if_true, Bool.false_eq_true, if_false]

lemma matchP1_shape (cs cl : List Char) (s e : Nat) (h : matchP1 cs = some (cl, s, e)) :
    ∃ t, cl = 'c' :: 'h' :: 'r' :: t ∧ t ≠ [] ∧ ∀ c ∈ t, isTokChar c = true := by
  unfold matchP1 at h
  split at h
  case _ rest =>
    by_cases htok : rest.takeWhile isTokChar = []
    · rw [if_pos htok] at h
      exact absurd h (by simp)
    · rw [if_neg htok] at h
      split at h
      · rename_i r2 heq
        by_cases hd1 : r2.takeWhile Char.isDigit = []
        · rw [if_pos hd1] at h
          exact absurd h (by simp)
        · rw [if_neg hd1] at h
          split at h
          · rename_i r4 heq4
            by_cases hd2 : r4.takeWhile Char.isDigit = []
            · rw [if_pos hd2] at h
              exact absurd h (by simp)
            · rw [if_neg hd2] at h
              refine ⟨rest.takeWhile isTokChar, ?_, htok, ?_⟩
              · exact (congrArg (fun r => r.1) (Option.some.inj h)).symm
              · intro c hc
                exact List.mem_takeWhile_imp hc
          · exact absurd h (by simp)
      · exact absurd h (by simp)
  case _ => exact absurd h (by simp)

lemma matchP2_shape (cs cl : List Char) (s e : Nat) (h : matchP2 cs = some (cl, s, e)) :
    ∃ t, cl = 'c' :: 'h' :: 'r' :: t ∧ t ≠ [] ∧ ∀ c ∈ t, isTokChar c = true := by
  unfold matchP2 at h
  split at h
  case _ rest =>
    by_cases htok : rest.takeWhile isTokChar = []
    · rw [if_pos htok] at h
      exact absurd h (by simp)
    · rw [if_neg htok] at h
      split at h
      · rename_i r2 heq
        by_cases hd : r2.takeWhile Char.isDigit = []
        · rw [if_pos hd] at h
          exact absurd h (by simp)
        · rw [if_neg hd] at h
          refine ⟨rest.takeWhile isTokChar, ?_, htok, ?_⟩
          · exact (congrArg (fun r => r.1) (Option.some.inj h)).symm
          · intro c hc
            exact List.mem_takeWhile_imp hc
      · exact absurd h (by simp)
  case _ => exact absurd h (by simp)

lemma parseChars_shape (cs cl : List Char) (s e : Nat) (h : parseChars cs = some (cl, s, e)) :
    ∃ t, cl = 'c' :: 'h' :: 'r' :: t ∧ t ≠ [] ∧ ∀ c ∈ t, isTokChar c = true := by
  simp only [parseChars] at h
  by_cases hl : stripChars cs = []
  · rw [if_pos hl] at h
    exact absurd h (by simp)
  · rw [if_neg hl] at h
    split at h
    · rename_i r heq
      have hr := Option.some.inj h
      subst hr
      exact matchP1_shape _ _ _ _ heq
    · rename_i heq
      exact matchP2_shape _ _ _ _ h

lemma parse_position_blank (line : String) (h : pyStrip line = "") :
    parse_position line = none := by
  have hl : stripChars line.data = [] := by
    have := congrArg String.data h
    simpa [pyStrip] using this
  simp [parse_position, parseChars, hl]

lemma processLines_blank_cons (p : Bool) (inA outA : Assembly)
    (lift : String → Nat → Nat → Assembly → Assembly → Option (String × Nat × Nat))
    (idx : Nat) (line : String) (rest : List String) (h : pyStrip line = "") :
    (processLines p inA outA lift idx (line :: rest)).bedEntries
        = (processLines p inA outA lift (idx + 1) rest).bedEntries
      ∧ (processLines p inA outA lift idx (line :: rest)).failedLines
        = failMsg idx line :: (processLines p inA outA lift (idx + 1) rest).failedLines
      ∧ (processLines p inA outA lift idx (line :: rest)).liftoverFailed
        = (processLines p inA outA lift (idx + 1) rest).liftoverFailed := by
  simp only [processLines, parse_position_blank line h]
  refine ⟨?_, ?_, ?_⟩ <;> trivial

lemma processLines_same_asm (p : Bool) (a : Assembly)
    (lift : String → Nat → Nat → Assembly → Assembly → Option (String × Nat × Nat)) :
    ∀ (ls : List String) (idx : Nat),
      (processLines p a a lift idx ls).liftCalls = 0
        ∧ (processLines p a a lift idx ls).bedEntries
          = ls.filterMap (fun l => (parse_position l).map
              (fun r => serializeBed r.1 r.2.1 r.2.2)) := by
  intro ls
  induction ls with
  | nil => exact fun _ => ⟨rfl, rfl⟩
  | cons line rest ih =>
    intro idx
    cases hp : parse_position line with
    | none =>
      simp only [processLines, hp]
      simp [List.filterMap_cons, hp, (ih (idx + 1)).1, (ih (idx + 1)).2]
    | some r =>
      obtain ⟨c, s, e⟩ := r
      simp only [processLines, hp]
      split
      · rename_i hcond
        exact absurd hcond.2 (by simp)
      · simp [List.filterMap_cons, hp, (ih (idx + 1)).1, (ih (idx + 1)).2]

lemma processLines_liftfail (inA outA : Assembly)
    (lift : String → Nat → Nat → Assembly → Assembly → Option (String × Nat × Nat))
    (hne : inA ≠ outA) (hl : ∀ c s e, lift c s e inA outA = none) :
    ∀ (ls : List String) (idx : Nat),
      (processLines true inA outA lift idx ls).bedEntries = []
        ∧ (processLines true inA outA lift idx ls).liftoverFailed
          = (withLineNumbers idx ls).filterMap (fun pr => (parse_position pr.2).map
              (fun r => loFailMsg pr.1 pr.2 r.1 r.2.1 r.2.2)) := by
  intro ls
  induction ls with
  | nil => exact fun _ => ⟨rfl, rfl⟩
  | cons line rest ih =>
    intro idx
    cases hp : parse_position line with
    | none =>
      simp only [processLines, hp, withLineNumbers]
      simp [List.filterMap_cons, hp, (ih (idx + 1)).1, (ih (idx + 1)).2]
    | some r =>
      obtain ⟨c, s, e⟩ := r
      simp only [processLines, hp, hl c s e, withLineNumbers]
      split
      · rename_i hcond
        simp [List.filterMap_cons, hp, (ih (idx + 1)).1, (ih (idx + 1)).2]
      · rename_i hcond
        exact absurd ⟨by simp, hne⟩ hcond

/-! ## Claims -/

/-- Claim C1, counterexample: a whitespace-only interior line does produce a
failure report — the batch on `"chr1:5\n \nchr2:7"` reports line 2 (a single
space, blank after trimming) in the parse-failure list. -/
theorem whitespace_line_reported_as_parse_failure :
    pyStrip " " = ""
      ∧ (runBatch false Assembly.hg19 Assembly.hg38 noLift "chr1:5\n \nchr2:7").failedLines
        = ["Line 2:  "] := by
  exact ⟨by decide, by decide⟩

/-- Claim C1, amended: a line that is empty or whitespace-only after trimming
contributes no converted BED entry and no liftover-failure entry, but it is
recorded in the parse-failure list as `Line {idx}: {line}`. -/
theorem blank_line_excluded_but_reported (p : Bool) (inA outA : Assembly)
    (lift : String → Nat → Nat → Assembly → Assembly → Option (String × Nat × Nat))
    (idx : Nat) (line : String) (rest : List String) (h : pyStrip line = "") :
    (processLines p inA outA lift idx (line :: rest)).bedEntries
        = (processLines p inA outA lift (idx + 1) rest).bedEntries
      ∧ (processLines p inA outA lift idx (line :: rest)).failedLines
        = failMsg idx line :: (processLines p inA outA lift (idx + 1) rest).failedLines
      ∧ (processLines p inA outA lift idx (line :: rest)).liftoverFailed
        = (processLines p inA outA lift (idx + 1) rest).liftoverFailed :=
  processLines_blank_cons p inA outA lift idx line rest h

/-- Witness for the amended C1 at the whitespace-only line `" "`. -/
theorem blank_line_excluded_but_reported_witness :
    pyStrip " " = ""
      ∧ ((processLines false Assembly.hg19 Assembly.hg38 noLift 1 (" " :: ["chr2:7"])).bedEntries
          = (processLines false Assembly.hg19 Assembly.hg38 noLift 2 ["chr2:7"]).bedEntries
        ∧ (processLines false Assembly.hg19 Assembly.hg38 noLift 1 (" " :: ["chr2:7"])).failedLines
          = failMsg 1 " "
            :: (processLines false Assembly.hg19 Assembly.hg38 noLift 2 ["chr2:7"]).failedLines
        ∧ (processLines false Assembly.hg19 Assembly.hg38 noLift 1 (" " :: ["chr2:7"])).liftoverFailed
          = (processLines false Assembly.hg19 Assembly.hg38 noLift 2 ["chr2:7"]).liftoverFailed) :=
  ⟨by decide,
    blank_line_excluded_but_reported false Assembly.hg19 Assembly.hg38 noLift 1 " " ["chr2:7"]
      (by decide)⟩

/-- Claim C2, counterexample: the §8 scenario does not produce exactly one
parse failure (the interior blank line is reported too). -/
theorem scenario_parse_failures_not_one :
    ¬(runBatch false Assembly.hg19 Assembly.hg38 noLift scenarioInput).failedLines.length = 1 := by
  decide

/-- Claim C2, amended: the §8 scenario with liftover disabled yields the three
converted BED lines in order, two parse failures (the blank line 4 and
`badline` on line 5), and no liftover failures. -/
theorem scenario_batch_result :
    runBatch false Assembly.hg19 Assembly.hg38 noLift scenarioInput
      = ⟨["chr1\t1000000\t1000001", "chr2\t5000000\t5001000", "chr3\t1234567\t1234890"],
         ["Line 4: ", "Line 5: badline"], [], 0⟩ := by
  decide

/-- Claim C3, counterexample: `"chrXX:200-100"` parses to an interval with
`start > end` and a chromosome that is neither `chr` + digits nor `chr` +
a single `X`/`Y`/`M`. -/
theorem interval_invariant_fails :
    parse_position "chrXX:200-100" = some ("chrXX", 200, 100)
      ∧ ¬(200 : Nat) < 100
      ∧ specChromPattern "chrXX" = false := by
  exact ⟨by decide, by decide, by decide⟩

/-- Claim C3, amended: every interval the parser returns has a chromosome of
the form `chr` followed by a nonempty token over digits, `X`, `Y`, `M`
(mixtures allowed); no `start < end` guarantee holds for the range form. -/
theorem parser_chrom_shape (line c : String) (s e : Nat)
    (h : parse_position line = some (c, s, e)) :
    ∃ t, c = String.mk ('c' :: 'h' :: 'r' :: t) ∧ t ≠ [] ∧ ∀ ch ∈ t, isTokChar ch = true := by
  unfold parse_position at h
  cases hpc : parseChars line.data with
  | none =>
    rw [hpc] at h
    exact absurd h (by simp)
  | some r =>
    rw [hpc] at h
    obtain ⟨cl, s', e'⟩ := r
    simp only [Option.map_some'] at h
    have h2 := Option.some.inj h
    obtain ⟨t, ht, htne, htall⟩ := parseChars_shape _ _ _ _ hpc
    refine ⟨t, ?_, htne, htall⟩
    have hc : String.mk cl = c := congrArg (fun x => x.1) h2
    rw [← hc, ht]

/-- Witness for the amended C3 at `"chr1:2-3"`. -/
theorem parser_chrom_shape_witness :
    parse_position "chr1:2-3" = some ("chr1", 2, 3)
      ∧ ∃ t, ("chr1" : String) = String.mk ('c' :: 'h' :: 'r' :: t) ∧ t ≠ []
          ∧ ∀ ch ∈ t, isTokChar ch = true :=
  ⟨by decide, parser_chrom_shape "chr1:2-3" "chr1" 2 3 (by decide)⟩

/-- Claim C4: a line that is exactly the range form
`chr<tok>:<digits>-<digits>` parses to the two digit groups verbatim — with
no constraint between them, hence no swap check — and the §8 example holds. -/
theorem range_form_verbatim :
    (∀ tok d1 d2 : List Char, tok ≠ [] → (∀ c ∈ tok, isTokChar c = true) →
      d1 ≠ [] → (∀ c ∈ d1, c.isDigit = true) → d2 ≠ [] → (∀ c ∈ d2, c.isDigit = true) →
      parse_position (String.mk ('c' :: 'h' :: 'r' :: (tok ++ ':' :: (d1 ++ '-' :: d2))))
        = some (String.mk ('c' :: 'h' :: 'r' :: tok), digitsToNat d1, digitsToNat d2))
    ∧ parse_position "chr2:5000000-5001000" = some ("chr2", 5000000, 5001000) := by
  constructor
  · intro tok d1 d2 htok htokall hd1 hd1all hd2 hd2all
    have h := parseChars_range tok d1 d2 [] htok htokall hd1 hd1all hd2 hd2all
      (by intro c hc; simp at hc) (by intro c cs' hc; exact absurd hc (by simp))
    rw [List.append_nil] at h
    simp only [parse_position, data_mk, h, Option.map_some']
  · decide

/-- Witness for C4 at a reversed range (`start > end`), showing verbatim use. -/
theorem range_form_verbatim_witness :
    (['1'] : List Char) ≠ []
      ∧ digitsToNat ['1', '0', '0'] < digitsToNat ['2', '0', '0']
      ∧ parse_position (String.mk ('c' :: 'h' :: 'r'
            :: (['1'] ++ ':' :: (['2', '0', '0'] ++ '-' :: ['1', '0', '0']))))
        = some (String.mk ('c' :: 'h' :: 'r' :: ['1']),
            digitsToNat ['2', '0', '0'], digitsToNat ['1', '0', '0']) :=
  ⟨by decide, by decide,
    range_form_verbatim.1 ['1'] ['2', '0', '0'] ['1', '0', '0'] (by decide) (by decide)
      (by decide) (by decide) (by decide) (by decide)⟩

/-- Claim C5: a line that is exactly the single-position form
`chr<tok>:<digits>` parses to an interval with `end = start + 1`, and the §8
example holds. -/
theorem single_position_end_succ :
    (∀ tok d : List Char, tok ≠ [] → (∀ c ∈ tok, isTokChar c = true) →
      d ≠ [] → (∀ c ∈ d, c.isDigit = true) →
      parse_position (String.mk ('c' :: 'h' :: 'r' :: (tok ++ ':' :: d)))
        = some (String.mk ('c' :: 'h' :: 'r' :: tok), digitsToNat d, digitsToNat d + 1))
    ∧ parse_position "chr1:500" = some ("chr1", 500, 501) := by
  constructor
  · intro tok d htok htokall hd hdall
    have h := parseChars_single tok d htok htokall hd hdall
    simp only [parse_position, data_mk, h, Option.map_some']
  · decide

/-- Witness for C5 at `chr1:500`. -/
theorem single_position_end_succ_witness :
    (['1'] : List Char) ≠ []
      ∧ parse_position (String.mk ('c' :: 'h' :: 'r' :: (['1'] ++ ':' :: ['5', '0', '0'])))
        = some (String.mk ('c' :: 'h' :: 'r' :: ['1']),
            digitsToNat ['5', '0', '0'], digitsToNat ['5', '0', '0'] + 1) :=
  ⟨by decide,
    single_position_end_succ.1 ['1'] ['5', '0', '0'] (by decide) (by decide) (by decide)
      (by decide)⟩

/-- Claim C6: on a trimmed, non-empty line without the `chr` prefix, parsing
the line equals parsing the line with `chr` prepended; in particular the §8
idempotence example holds. -/
theorem parse_chr_prepend_agrees :
    (∀ s : String, pyStrip s = s → s ≠ "" → startsWithChr s.data = false →
      parse_position s = parse_position ("chr" ++ s))
    ∧ parse_position "chr1:100-200" = parse_position "1:100-200" := by
  constructor
  · intro s h1 h2 h3
    obtain ⟨cs⟩ := s
    have h1' : stripChars cs = cs := by
      have := congrArg String.data h1
      simpa [pyStrip, data_mk] using this
    have h2' : cs ≠ [] := by
      intro hnil
      subst hnil
      exact h2 rfl
    have hd : ("chr" ++ String.mk cs).data = 'c' :: 'h' :: 'r' :: cs := rfl
    simp only [parse_position, data_mk, hd]
    rw [parseChars_prepend cs h1' h2' h3]
  · decide

/-- Witness for C6 at `"1:100-200"`. -/
theorem parse_chr_prepend_agrees_witness :
    pyStrip "1:100-200" = "1:100-200"
      ∧ parse_position "1:100-200" = parse_position ("chr" ++ "1:100-200") :=
  ⟨by decide,
    parse_chr_prepend_agrees.1 "1:100-200" (by decide) (by decide) (by decide)⟩

/-- Claim C7: with equal input and output assemblies the batch never invokes
the liftover client (zero instrumented calls, so the result does not depend
on the client), and each converted line is the serialized parsed interval. -/
theorem same_assembly_no_liftover (p : Bool) (a : Assembly)
    (lift : String → Nat → Nat → Assembly → Assembly → Option (String × Nat × Nat))
    (input : String) :
    (runBatch p a a lift input).liftCalls = 0
      ∧ (runBatch p a a lift input).bedEntries = expectedBedNoLift input := by
  unfold runBatch
  by_cases hs : pyStrip input = ""
  · rw [if_pos hs]
    unfold expectedBedNoLift
    rw [hs]
    exact ⟨rfl, by decide⟩
  · rw [if_neg hs]
    unfold expectedBedNoLift
    exact processLines_same_asm p a lift (pySplitNL (pyStrip input)) 1

/-- Witness for C7 with the liftover toggle on and equal assemblies. -/
theorem same_assembly_no_liftover_witness :
    (runBatch true Assembly.hg19 Assembly.hg19 noLift "chr1:5").liftCalls = 0
      ∧ (runBatch true Assembly.hg19 Assembly.hg19 noLift "chr1:5").bedEntries
        = expectedBedNoLift "chr1:5" :=
  same_assembly_no_liftover true Assembly.hg19 noLift "chr1:5"

/-- Claim C8: every failure mode of the remote service — raised exception
(timeout, network error), non-success HTTP status, malformed body, missing or
empty mapping list, or a mapping without a `mapped` record — yields the single
`none` outcome, and every raise inside the `try` body is converted to `none`
rather than propagated. -/
theorem liftover_client_collapses_failures (chrom : String) (s e : Nat) (fa ta : Assembly) :
    liftover_pyliftover chrom s e fa ta .exn = none
      ∧ (∀ st body, st ≠ 200 → liftover_pyliftover chrom s e fa ta (.response st body) = none)
      ∧ (∀ st, liftover_pyliftover chrom s e fa ta (.response st .malformed) = none)
      ∧ (∀ st, liftover_pyliftover chrom s e fa ta (.response st .noMappings) = none)
      ∧ (∀ st, liftover_pyliftover chrom s e fa ta (.response st (.mappings [])) = none)
      ∧ (∀ st rest,
          liftover_pyliftover chrom s e fa ta (.response st (.mappings (.noMapped :: rest)))
            = none)
      ∧ (∀ out, liftoverTryBody chrom s e fa ta out = .error ()
          → liftover_pyliftover chrom s e fa ta out = none) := by
  refine ⟨rfl, ?_, ?_, ?_, ?_, ?_, ?_⟩
  · intro st body hst
    simp [liftover_pyliftover, liftoverTryBody, hst]
  · intro st
    by_cases h200 : st = 200 <;> simp [liftover_pyliftover, liftoverTryBody, h200]
  · intro st
    by_cases h200 : st = 200 <;> simp [liftover_pyliftover, liftoverTryBody, h200]
  · intro st
    by_cases h200 : st = 200 <;> simp [liftover_pyliftover, liftoverTryBody, h200]
  · intro st rest
    by_cases h200 : st = 200 <;> simp [liftover_pyliftover, liftoverTryBody, h200]
  · intro out h
    simp [liftover_pyliftover, h]

/-- Witness for C8 at a 404 response. -/
theorem liftover_client_collapses_failures_witness :
    (404 : Nat) ≠ 200
      ∧ liftover_pyliftover "chr1" 100 200 Assembly.hg19 Assembly.hg38
          (.response 404 .noMappings) = none :=
  ⟨by decide,
    (liftover_client_collapses_failures "chr1" 100 200 Assembly.hg19 Assembly.hg38).2.1 404
      .noMappings (by decide)⟩

/-- Claim C9: with liftover requested (toggle on, differing assemblies) and a
client that fails on every call, the BED output is empty and every line that
parses is reported as a liftover failure with its line number, original text
and pre-liftover interval; the batch still processes every line. -/
theorem failing_liftover_reports_every_parsed_line (inA outA : Assembly)
    (lift : String → Nat → Nat → Assembly → Assembly → Option (String × Nat × Nat))
    (input : String) (hne : inA ≠ outA)
    (hfail : ∀ c s e, lift c s e inA outA = none) :
    (runBatch true inA outA lift input).bedEntries = []
      ∧ (runBatch true inA outA lift input).liftoverFailed
        = expectedLiftoverFailures input := by
  unfold runBatch
  by_cases hs : pyStrip input = ""
  · rw [if_pos hs]
    unfold expectedLiftoverFailures
    rw [hs]
    exact ⟨rfl, by decide⟩
  · rw [if_neg hs]
    unfold expectedLiftoverFailures
    exact processLines_liftfail inA outA lift hne hfail (pySplitNL (pyStrip input)) 1

/-- Witness for C9 on a one-line input with an always-failing client. -/
theorem failing_liftover_reports_every_parsed_line_witness :
    Assembly.hg19 ≠ Assembly.hg38
      ∧ (runBatch true Assembly.hg19 Assembly.hg38 noLift "chr1:100").bedEntries = []
      ∧ (runBatch true Assembly.hg19 Assembly.hg38 noLift "chr1:100").liftoverFailed
        = expectedLiftoverFailures "chr1:100" := by
  refine ⟨by decide, ?_⟩
  exact failing_liftover_reports_every_parsed_line Assembly.hg19 Assembly.hg38 noLift "chr1:100"
    (by decide) (fun _ _ _ => rfl)

/-- Claim C10: the patterns are unanchored at the end, so a line whose
chr-normalized text begins with the range pattern parses successfully with all
trailing characters ignored, and the two concrete examples behave as stated
(`chr1:100-abc` falls back to the single-position pattern). -/
theorem trailing_text_ignored :
    (∀ tok d1 d2 rst : List Char, tok ≠ [] → (∀ c ∈ tok, isTokChar c = true) →
      d1 ≠ [] → (∀ c ∈ d1, c.isDigit = true) → d2 ≠ [] → (∀ c ∈ d2, c.isDigit = true) →
      (∀ c ∈ rst, isSpaceChar c = false) →
      (∀ c cs', rst = c :: cs' → c.isDigit = false) →
      parse_position
          (String.mk ('c' :: 'h' :: 'r' :: (tok ++ ':' :: (d1 ++ '-' :: (d2 ++ rst)))))
        = some (String.mk ('c' :: 'h' :: 'r' :: tok), digitsToNat d1, digitsToNat d2))
    ∧ parse_position "chr1:100-abc" = some ("chr1", 100, 101)
    ∧ parse_position "chr1:100-200junk" = some ("chr1", 100, 200) := by
  refine ⟨?_, by decide, by decide⟩
  intro tok d1 d2 rst htok htokall hd1 hd1all hd2 hd2all hns hhd
  have h := parseChars_range tok d1 d2 rst htok htokall hd1 hd1all hd2 hd2all hns hhd
  simp only [parse_position, data_mk, h, Option.map_some']

/-- Witness for C10 with trailing text `junk` after a complete range. -/
theorem trailing_text_ignored_witness :
    (∀ c ∈ (['j', 'u', 'n', 'k'] : List Char), isSpaceChar c = false)
      ∧ parse_position (String.mk ('c' :: 'h' :: 'r'
            :: (['1'] ++ ':' :: (['1', '0', '0'] ++ '-' :: (['2', '0', '0'] ++ ['j', 'u', 'n', 'k'])))))
        = some (String.mk ('c' :: 'h' :: 'r' :: ['1']),
            digitsToNat ['1', '0', '0'], digitsToNat ['2', '0', '0']) :=
  ⟨by decide,
    trailing_text_ignored.1 ['1'] ['1', '0', '0'] ['2', '0', '0'] ['j', 'u', 'n', 'k']
      (by decide) (by decide) (by decide) (by decide) (by decide) (by decide) (by decide)
      (by intro c cs' hc; injection hc with hj ht; rw [← hj]; decide)⟩
